import Mathlib

/-!
# Verification of the MMLU benchmark prompt-construction and scoring loop

This file embeds the benchmark loader, prompt formatter and scoring loop of
the repository's MMLU evaluation notebooks (0-shot and 2-shot) and proves
the specified properties about them.

The notebooks import `format_example` and `gen_prompt` from a module
`reuse` whose source file is not part of the corpus; those two functions
are modelled from the specification (see the doc comments below).  All
other definitions are translated from the notebook cells themselves.
-/

namespace DeepevalStudies

/-- The correct-answer letter of a benchmark question: one of A, B, C, D
(data-model invariant of a `QuestionRow`). -/
inductive Letter where
  | A | B | C | D
deriving DecidableEq, Repr

/-- The character printed for a letter. -/
def Letter.char : Letter → Char
  | .A => 'A'
  | .B => 'B'
  | .C => 'C'
  | .D => 'D'

/-- The string printed for a letter. -/
def Letter.str : Letter → String
  | .A => "A"
  | .B => "B"
  | .C => "C"
  | .D => "D"

/-- A benchmark question row: question text, four answer choices, and the
correct letter (the six CSV columns of the MMLU data files). -/
structure QuestionRow where
  question : String
  choice1 : String
  choice2 : String
  choice3 : String
  choice4 : String
  correct : Letter
deriving DecidableEq, Repr

/-- Modelled from the spec: `format_example` is imported from the module
`reuse`, whose source file is missing from the corpus (only its callers
appear).  Per the spec, it renders one `QuestionRow` as the question text,
each choice letter-prefixed on its own line, and a trailing "Answer:"
marker; with `include_answer = true` the correct letter is appended after
the marker (followed by the blank line separating worked examples, as in
the prompts displayed by the calling notebooks).  The literal scenario
fixes the unanswered rendering as
`"Q1\nA. A1\nB. A2\nC. A3\nD. A4\n - Answer:"`. -/
def formatRow (r : QuestionRow) (include_answer : Bool) : String :=
  let base := r.question ++ "\nA. " ++ r.choice1 ++ "\nB. " ++ r.choice2 ++
    "\nC. " ++ r.choice3 ++ "\nD. " ++ r.choice4 ++ "\n - Answer:"
  if include_answer then base ++ " " ++ r.correct.str ++ "\n\n" else base

/-- Modelled from the spec: `format_example(rows, index, include_answer)`
addresses one row of the table by index; an out-of-range index is an
error (`none`). -/
def format_example (rows : List QuestionRow) (index : Nat)
    (include_answer : Bool) : Option String :=
  rows[index]?.map (fun r => formatRow r include_answer)

/-- The fixed text preceding the topic name in the prompt header. -/
def headerPre : String :=
  "The following are multiple choice questions (with answers) about "

/-- Modelled from the spec: the fixed instructional header of a prompt,
naming the topic (text as displayed by the calling notebooks). -/
def promptHeader (topic : String) : String :=
  headerPre ++ topic ++ ".\n\n"

/-- The concatenation, in order, of the fully-answered renderings of a
list of example rows. -/
def promptExamples : List QuestionRow → String
  | [] => ""
  | r :: rs => formatRow r true ++ promptExamples rs

/-- Error raised when the requested shot count exceeds the available
example rows (the spec's `OutOfRangeError`). -/
inductive PromptError where
  | outOfRange
deriving DecidableEq, Repr

/-- Modelled from the spec: `gen_prompt(rows, topic_name, shot_count)` is
imported from the missing module `reuse`.  It prepends the fixed
instructional header naming the topic, then emits `shot_count`
fully-answered examples drawn, in order, from the first `shot_count` rows
of the example table; a `shot_count` greater than the available rows fails
with an `OutOfRangeError`. -/
def gen_prompt (rows : List QuestionRow) (topic : String) (shot_count : Nat) :
    Except PromptError String :=
  if shot_count ≤ rows.length then
    Except.ok (promptHeader topic ++ promptExamples (rows.take shot_count))
  else
    Except.error PromptError.outOfRange

/-- The literal scenario row of the spec. -/
def scenarioRow : QuestionRow :=
  { question := "Q1", choice1 := "A1", choice2 := "A2", choice3 := "A3",
    choice4 := "A4", correct := Letter.A }

/-! ## Counting pattern occurrences in character lists

Infrastructure used to state and settle the properties about the
"Answer:" marker occurring in prompts. -/

/-- Number of start positions of `s` at which the pattern `p` occurs as a
contiguous sublist (occurrences may overlap). -/
def countOccur (p : List Char) : List Char → Nat
  | [] => if p.isPrefixOf ([] : List Char) then 1 else 0
  | c :: s => (if p.isPrefixOf (c :: s) then 1 else 0) + countOccur p s

theorem countOccur_nil (p : List Char) (hp : p ≠ []) : countOccur p [] = 0 := by
  cases p with
  | nil => exact absurd rfl hp
  | cons c q => simp [countOccur, List.isPrefixOf]

/-- No occurrence of `p` in `a ++ b` straddles the boundary between `a`
and `b`: any occurrence starting inside `a` ends inside `a`. -/
def NoStraddle (p a b : List Char) : Prop :=
  ∀ i, i < a.length → p.isPrefixOf ((a ++ b).drop i) → i + p.length ≤ a.length

theorem countOccur_append (p : List Char) (hp : p ≠ []) :
    ∀ a b : List Char, NoStraddle p a b →
      countOccur p (a ++ b) = countOccur p a + countOccur p b := by
  intro a
  induction a with
  | nil =>
    intro b _
    simp [countOccur_nil p hp]
  | cons c a ih =>
    intro b h
    have h' : NoStraddle p a b := by
      intro i hi hpre
      have hstep := h (i + 1) (by simpa using Nat.succ_lt_succ hi)
        (by simpa using hpre)
      simpa [Nat.succ_le_succ_iff, Nat.add_right_comm] using hstep
    have hhead : p.isPrefixOf (c :: (a ++ b)) = p.isPrefixOf (c :: a) := by
      by_cases hb : p.isPrefixOf (c :: (a ++ b))
      · have hlen : p.length ≤ (c :: a).length := by
          have := h 0 (Nat.succ_pos _) (by simpa using hb)
          simpa using this
        have hpre : p <+: (c :: a) ++ b := by
          simpa using List.isPrefixOf_iff_prefix.mp hb
        have hpre2 : p <+: c :: a := by
          rw [List.prefix_iff_eq_take] at hpre
          refine List.prefix_iff_eq_take.mpr ?e
          conv_lhs => rw [hpre]
          rw [List.take_append_of_le_length hlen]
        rw [hb, Eq.comm]
        exact List.isPrefixOf_iff_prefix.mpr hpre2
      · have hnot : ¬ p.isPrefixOf (c :: a) := by
          intro hyes
          exact hb (by
            have : p <+: (c :: a) ++ b :=
              (List.isPrefixOf_iff_prefix.mp hyes).trans (List.prefix_append _ _)
            simpa using List.isPrefixOf_iff_prefix.mpr this)
        simp [hb, hnot]
    calc countOccur p (c :: (a ++ b))
        = (if p.isPrefixOf (c :: (a ++ b)) then 1 else 0) + countOccur p (a ++ b) := rfl
      _ = (if p.isPrefixOf (c :: a) then 1 else 0) +
            (countOccur p a + countOccur p b) := by rw [hhead, ih b h']
      _ = countOccur p (c :: a) + countOccur p b := by
          simp [countOccur, Nat.add_assoc]

/-- A straddling occurrence would have to read the first character of `b`
at a pattern position ≥ 1; impossible when that character is not in
`p.tail`. -/
theorem noStraddle_of_head (p a b : List Char)
    (hb : ∀ c, b.head? = some c → c ∉ p.tail) : NoStraddle p a b := by
  intro i hi hpre
  by_contra hlen
  push_neg at hlen
  have hpre' : p <+: (a ++ b).drop i := List.isPrefixOf_iff_prefix.mp hpre
  cases b with
  | nil =>
    have h1 : p.length ≤ ((a ++ ([] : List Char)).drop i).length := hpre'.length_le
    simp [List.length_drop] at h1
    omega
  | cons c b' =>
    have hjp : a.length - i < p.length := by omega
    have hlenab : ((a ++ c :: b').drop i).length = a.length + (b'.length + 1) - i := by
      simp [List.length_drop, List.length_append]
    have hidx : a.length - i < ((a ++ c :: b').drop i).length := by
      rw [hlenab]; omega
    have e1 : p[a.length - i] = ((a ++ c :: b').drop i)[a.length - i] :=
      hpre'.getElem hjp
    have hidx2 : i + (a.length - i) < (a ++ c :: b').length := by
      simp [List.length_append]; omega
    have e2 : ((a ++ c :: b').drop i)[a.length - i] =
        (a ++ c :: b')[i + (a.length - i)] := List.getElem_drop _
    have hia : i + (a.length - i) = a.length := by omega
    have e3 : (a ++ c :: b')[i + (a.length - i)] = c := by
      have h1 : a.length ≤ i + (a.length - i) := by omega
      rw [List.getElem_append_right h1]
      simp [hia]
    have hmem : c ∈ p.tail := by
      have h1 : a.length - i - 1 < p.tail.length := by
        simp [List.length_tail]; omega
      have h2 : p.tail[a.length - i - 1] = p[a.length - i - 1 + 1] :=
        List.getElem_tail _ _ _
      have h3 : a.length - i - 1 + 1 = a.length - i := by omega
      have : p.tail[a.length - i - 1] = c := by
        rw [h2]
        have := e1.trans (e2.trans e3)
        simpa [h3] using this
      exact this ▸ List.getElem_mem h1
    exact hb c rfl hmem

/-- A straddling occurrence would have to read the last character of `a`
at a pattern position < `p.length - 1`; impossible when that character is
not in `p.dropLast`. -/
theorem noStraddle_of_getLast (p a b : List Char)
    (ha : ∀ c, a.getLast? = some c → c ∉ p.dropLast) : NoStraddle p a b := by
  intro i hi hpre
  by_contra hlen
  push_neg at hlen
  have hpre' : p <+: (a ++ b).drop i := List.isPrefixOf_iff_prefix.mp hpre
  have hane : a ≠ [] := by
    intro h; subst h; simp at hi
  have hjp : a.length - 1 - i < p.length := by omega
  have hidx : a.length - 1 - i < ((a ++ b).drop i).length := by
    simp [List.length_drop, List.length_append]; omega
  have e1 : p[a.length - 1 - i] = ((a ++ b).drop i)[a.length - 1 - i] :=
    hpre'.getElem hjp
  have hidx2 : i + (a.length - 1 - i) < (a ++ b).length := by
    simp [List.length_append]; omega
  have e2 : ((a ++ b).drop i)[a.length - 1 - i] =
      (a ++ b)[i + (a.length - 1 - i)] := List.getElem_drop _
  have hia : i + (a.length - 1 - i) = a.length - 1 := by omega
  have hlt : i + (a.length - 1 - i) < a.length := by omega
  have e3 : (a ++ b)[i + (a.length - 1 - i)] = a[a.length - 1] := by
    rw [List.getElem_append_left hlt]
    congr 1
  have hglast : a.getLast? = some (a[a.length - 1]) := by
    rw [List.getLast?_eq_getElem?, List.getElem?_eq_getElem]
  have hmem : a[a.length - 1] ∈ p.dropLast := by
    have h1 : a.length - 1 - i < p.dropLast.length := by
      simp [List.length_dropLast]; omega
    have h2 : p.dropLast[a.length - 1 - i] = p[a.length - 1 - i] :=
      List.getElem_dropLast _ _ _
    have : p.dropLast[a.length - 1 - i] = a[a.length - 1] := by
      rw [h2]; exact e1.trans (e2.trans e3)
    exact this ▸ List.getElem_mem h1
  exact ha _ hglast hmem

/-- A straddling occurrence would make a nonempty proper prefix of `p` a
suffix of `a`; impossible when no such prefix is. -/
theorem noStraddle_of_no_border (p a b : List Char)
    (h : ∀ j, j < p.length → 0 < j → ¬ (p.take j <:+ a)) : NoStraddle p a b := by
  intro i hi hpre
  by_contra hlen
  push_neg at hlen
  have hpre' : p <+: (a ++ b).drop i := List.isPrefixOf_iff_prefix.mp hpre
  have hj1 : 0 < a.length - i := by omega
  have hj2 : a.length - i < p.length := by omega
  refine h (a.length - i) hj2 hj1 ?suf
  have htk : p.take (a.length - i) = a.drop i := by
    have hpeq : p = ((a ++ b).drop i).take p.length :=
      List.prefix_iff_eq_take.mp hpre'
    have hd : (a ++ b).drop i = a.drop i ++ b :=
      List.drop_append_of_le_length (by omega)
    calc p.take (a.length - i)
        = (((a ++ b).drop i).take p.length).take (a.length - i) := by
          conv_lhs => rw [hpeq]
      _ = ((a ++ b).drop i).take (a.length - i) := by
          rw [List.take_take]
          congr 1
          omega
      _ = (a.drop i ++ b).take (a.length - i) := by rw [hd]
      _ = (a.drop i).take (a.length - i) := by
          exact List.take_append_of_le_length (by simp [List.length_drop])
      _ = a.drop i := by
          have : a.length - i = (a.drop i).length := by simp [List.length_drop]
          rw [this, List.take_length]
  rw [htk]
  exact List.drop_suffix i a

/-- `countOccur` counts the start positions at which the pattern occurs. -/
theorem countOccur_eq_countP (p : List Char) (hp : p ≠ []) :
    ∀ s : List Char, countOccur p s =
      (List.range s.length).countP (fun i => p.isPrefixOf (s.drop i)) := by
  intro s
  induction s with
  | nil => simp [countOccur_nil p hp]
  | cons c s ih =>
    have hlen : (c :: s).length = s.length + 1 := rfl
    rw [hlen, List.range_succ_eq_map, List.countP_cons, List.countP_map]
    have e1 : List.countP
          ((fun i => p.isPrefixOf ((c :: s).drop i)) ∘ Nat.succ)
          (List.range s.length) =
        List.countP (fun i => p.isPrefixOf (s.drop i)) (List.range s.length) := rfl
    rw [e1, ← ih]
    simp only [countOccur, List.drop_zero]
    exact Nat.add_comm _ _

/-- A longer pattern occurs at no more positions than any of its
prefixes. -/
theorem countOccur_mono_pattern (p q : List Char) (hpq : p <+: q) :
    ∀ s : List Char, countOccur q s ≤ countOccur p s := by
  intro s
  induction s with
  | nil =>
    by_cases hq : q.isPrefixOf ([] : List Char)
    · have hq0 : q = [] := by simpa [List.isPrefixOf_iff_prefix] using hq
      have hp0 : p = [] := by
        subst hq0
        simpa using List.prefix_iff_eq_take.mp hpq
      simp [countOccur, hq0, hp0]
    · simp [countOccur, hq]
  | cons c s ih =>
    simp only [countOccur]
    have : (if q.isPrefixOf (c :: s) then 1 else 0) ≤
        (if p.isPrefixOf (c :: s) then 1 else 0) := by
      by_cases hq : q.isPrefixOf (c :: s)
      · have hp : p.isPrefixOf (c :: s) := by
          rw [List.isPrefixOf_iff_prefix] at hq ⊢
          exact hpq.trans hq
        simp [hq, hp]
      · simp [hq]
    omega

/-- A pattern that occurs nowhere has as little chance for any extension
of it. -/
theorem countOccur_zero_mono (p q s : List Char) (hpq : p <+: q)
    (h : countOccur p s = 0) : countOccur q s = 0 :=
  Nat.le_zero.mp (h ▸ countOccur_mono_pattern p q hpq s)

/-- Counting a disjunction of two never-simultaneous predicates adds the
counts. -/
theorem countP_or_of_disjoint {α : Type} (f g : α → Bool) :
    ∀ l : List α, (∀ x ∈ l, ¬ (f x = true ∧ g x = true)) →
      l.countP (fun x => f x || g x) = l.countP f + l.countP g := by
  intro l
  induction l with
  | nil => simp
  | cons a l ih =>
    intro h
    have h' := ih (fun x hx => h x (List.mem_cons_of_mem _ hx))
    rw [List.countP_cons, List.countP_cons, List.countP_cons, h']
    rcases hf : f a <;> rcases hg : g a <;> simp [hf, hg] <;> try omega
    exact absurd ⟨hf, hg⟩ (h a (List.mem_cons_self _ _))

/-- If `g` implies `f` pointwise and both count the same number of list
entries, then `f` implies `g` on the list. -/
theorem countP_eq_rev_imp {α : Type} (f g : α → Bool) :
    ∀ l : List α, (∀ x ∈ l, g x = true → f x = true) →
      l.countP f = l.countP g → ∀ x ∈ l, f x = true → g x = true := by
  intro l
  induction l with
  | nil => simp
  | cons a l ih =>
    intro himp heq x hx hfx
    have himp' : ∀ x ∈ l, g x = true → f x = true :=
      fun x hx => himp x (List.mem_cons_of_mem _ hx)
    rw [List.countP_cons, List.countP_cons] at heq
    rcases hga : g a
    · rcases hfa : f a
      · have heq' : l.countP f = l.countP g := by
          simp [hfa, hga] at heq
          omega
        rcases List.mem_cons.mp hx with rfl | hx'
        · rw [hfx] at hfa; cases hfa
        · exact ih himp' heq' x hx' hfx
      · exfalso
        have hle : l.countP g ≤ l.countP f := List.countP_mono_left himp'
        simp [hfa, hga] at heq
        omega
    · rcases List.mem_cons.mp hx with rfl | hx'
      · exact hga
      · have hfa : f a = true := himp a (List.mem_cons_self _ _) hga
        have heq' : l.countP f = l.countP g := by
          simp [hfa, hga] at heq
          omega
        exact ih himp' heq' x hx' hfx

/-- Append step: a left part containing no occurrence, followed by text
whose first character cannot continue a straddling occurrence. -/
theorem countOccur_append_left_zero (p f rest : List Char) (hne : p ≠ [])
    (hf : countOccur p f = 0) (c : Char) (hhead : rest.head? = some c)
    (hc : c ∉ p.tail) :
    countOccur p (f ++ rest) = countOccur p rest := by
  rw [countOccur_append p hne f rest
    (noStraddle_of_head p f rest (fun c' h' => by
      rw [hhead] at h'
      injection h' with h''
      rw [← h'']
      exact hc)), hf]
  omega

/-- Append step: a concrete separator containing no occurrence and
admitting no border with the pattern. -/
theorem countOccur_append_sep (p sep rest : List Char) (hne : p ≠ [])
    (hsep : countOccur p sep = 0)
    (hborder : ∀ j, j < p.length → 0 < j → ¬ (p.take j <:+ sep)) :
    countOccur p (sep ++ rest) = countOccur p rest := by
  rw [countOccur_append p hne sep rest (noStraddle_of_no_border p sep rest hborder),
    hsep]
  omega

/-- Append step: a block whose last character cannot start a straddling
occurrence contributes its own count. -/
theorem countOccur_append_block (p blk rest : List Char) (hne : p ≠ [])
    (c : Char) (hlast : blk.getLast? = some c) (hc : c ∉ p.dropLast) :
    countOccur p (blk ++ rest) = countOccur p blk + countOccur p rest :=
  countOccur_append p hne blk rest
    (noStraddle_of_getLast p blk rest (fun c' h' => by
      rw [hlast] at h'
      injection h' with h''
      rw [← h'']
      exact hc))

/-! ## The "Answer:" marker inside rendered prompts -/

/-- The characters of the literal "Answer:" marker. -/
def markerChars : List Char := "Answer:".data

/-- The characters of the marker followed by a space and the letter `L`:
an answered marker. -/
def extChars (L : Letter) : List Char := ("Answer: " ++ L.str).data

/-- The characters closing an answered example: the marker line tail with
the correct letter and the blank separator line. -/
def tailChars (L : Letter) : List Char := ("\n - Answer: " ++ L.str ++ "\n\n").data

theorem tailChars_head (L : Letter) : (tailChars L).head? = some '\n' := by
  cases L <;> rfl

theorem tailChars_getLast (L : Letter) : (tailChars L).getLast? = some '\n' := by
  cases L <;> rfl

/-- Joining the literal marker pieces. -/
theorem answerSpace_data (X : List Char) :
    "\n - Answer:".data ++ (" ".data ++ X) = "\n - Answer: ".data ++ X := by
  rw [← List.append_assoc]
  rfl

/-- The character-level shape of a fully-answered example rendering. -/
theorem formatRow_true_data (r : QuestionRow) :
    (formatRow r true).data =
      r.question.data ++ ("\nA. ".data ++ (r.choice1.data ++ ("\nB. ".data ++
        (r.choice2.data ++ ("\nC. ".data ++ (r.choice3.data ++ ("\nD. ".data ++
          (r.choice4.data ++ tailChars r.correct)))))))) := by
  simp only [formatRow, if_pos, tailChars, String.data_append, List.append_assoc]
  rw [answerSpace_data]

/-- The character-level shape of an unanswered example rendering. -/
theorem formatRow_false_data (r : QuestionRow) :
    (formatRow r false).data =
      r.question.data ++ ("\nA. ".data ++ (r.choice1.data ++ ("\nB. ".data ++
        (r.choice2.data ++ ("\nC. ".data ++ (r.choice3.data ++ ("\nD. ".data ++
          (r.choice4.data ++ "\n - Answer:".data)))))))) := by
  simp only [formatRow, if_neg, Bool.false_eq_true, not_false_iff,
    String.data_append, List.append_assoc]

/-- If the right part of an append has a known last element, so has the
append. -/
theorem getLast?_append_right {l l' : List Char} {c : Char}
    (h : l'.getLast? = some c) : (l ++ l').getLast? = some c := by
  rw [List.getLast?_append, h]
  rfl

theorem formatRow_true_getLast (r : QuestionRow) :
    (formatRow r true).data.getLast? = some '\n' := by
  rw [formatRow_true_data]
  exact getLast?_append_right (getLast?_append_right (getLast?_append_right
    (getLast?_append_right (getLast?_append_right (getLast?_append_right
      (getLast?_append_right (getLast?_append_right (getLast?_append_right
        (tailChars_getLast r.correct)))))))))

/-- Occurrence count of a pattern in a fully-answered example rendering:
everything is contributed by the closing `tailChars` block, provided the
pattern occurs in none of the row's fields or the fixed separators and can
straddle no boundary. -/
theorem countOccur_formatRow_true (p : List Char) (r : QuestionRow)
    (hne : p ≠ [])
    (hnl : ('\n' : Char) ∉ p.tail)
    (hb1 : ∀ j, j < p.length → 0 < j → ¬ (p.take j <:+ "\nA. ".data))
    (hb2 : ∀ j, j < p.length → 0 < j → ¬ (p.take j <:+ "\nB. ".data))
    (hb3 : ∀ j, j < p.length → 0 < j → ¬ (p.take j <:+ "\nC. ".data))
    (hb4 : ∀ j, j < p.length → 0 < j → ¬ (p.take j <:+ "\nD. ".data))
    (hs1 : countOccur p "\nA. ".data = 0)
    (hs2 : countOccur p "\nB. ".data = 0)
    (hs3 : countOccur p "\nC. ".data = 0)
    (hs4 : countOccur p "\nD. ".data = 0)
    (hq : countOccur p r.question.data = 0)
    (hc1 : countOccur p r.choice1.data = 0)
    (hc2 : countOccur p r.choice2.data = 0)
    (hc3 : countOccur p r.choice3.data = 0)
    (hc4 : countOccur p r.choice4.data = 0) :
    countOccur p (formatRow r true).data = countOccur p (tailChars r.correct) := by
  rw [formatRow_true_data]
  rw [countOccur_append_left_zero p r.question.data _ hne hq '\n' (by rfl) hnl]
  rw [countOccur_append_sep p "\nA. ".data _ hne hs1 hb1]
  rw [countOccur_append_left_zero p r.choice1.data _ hne hc1 '\n' (by rfl) hnl]
  rw [countOccur_append_sep p "\nB. ".data _ hne hs2 hb2]
  rw [countOccur_append_left_zero p r.choice2.data _ hne hc2 '\n' (by rfl) hnl]
  rw [countOccur_append_sep p "\nC. ".data _ hne hs3 hb3]
  rw [countOccur_append_left_zero p r.choice3.data _ hne hc3 '\n' (by rfl) hnl]
  rw [countOccur_append_sep p "\nD. ".data _ hne hs4 hb4]
  rw [countOccur_append_left_zero p r.choice4.data _ hne hc4 '\n'
    (tailChars_head r.correct) hnl]

/-- Occurrence count of a pattern in the concatenated answered examples:
the sum of the per-example counts. -/
theorem countOccur_promptExamples (p : List Char)
    (hne : p ≠ []) (hdl : ('\n' : Char) ∉ p.dropLast) :
    ∀ l : List QuestionRow,
      (∀ r ∈ l, countOccur p (formatRow r true).data =
        countOccur p (tailChars r.correct)) →
      countOccur p (promptExamples l).data =
        (l.map (fun r => countOccur p (tailChars r.correct))).sum := by
  intro l
  induction l with
  | nil =>
    intro _
    simp [promptExamples, countOccur_nil p hne]
  | cons r rs ih =>
    intro hrow
    have hdata : (promptExamples (r :: rs)).data =
        (formatRow r true).data ++ (promptExamples rs).data := by
      simp [promptExamples, String.data_append]
    rw [hdata, countOccur_append_block p _ _ hne '\n' (formatRow_true_getLast r) hdl,
      hrow r (List.mem_cons_self _ _),
      ih (fun x hx => hrow x (List.mem_cons_of_mem _ hx))]
    simp

/-- Occurrence count of a pattern in a whole generated prompt. -/
theorem countOccur_prompt (p : List Char) (rows : List QuestionRow)
    (topic : String) (k : Nat)
    (hne : p ≠ [])
    (_hnl : ('\n' : Char) ∉ p.tail)
    (hdl : ('\n' : Char) ∉ p.dropLast)
    (hdot : ('.' : Char) ∉ p.tail)
    (hbH : ∀ j, j < p.length → 0 < j → ¬ (p.take j <:+ headerPre.data))
    (hb5 : ∀ j, j < p.length → 0 < j → ¬ (p.take j <:+ ".\n\n".data))
    (hpre : countOccur p headerPre.data = 0)
    (hdot3 : countOccur p ".\n\n".data = 0)
    (htopic : countOccur p topic.data = 0)
    (hrow : ∀ r ∈ rows.take k, countOccur p (formatRow r true).data =
      countOccur p (tailChars r.correct)) :
    countOccur p (promptHeader topic ++ promptExamples (rows.take k)).data =
      ((rows.take k).map (fun r => countOccur p (tailChars r.correct))).sum := by
  have hdata : (promptHeader topic ++ promptExamples (rows.take k)).data =
      headerPre.data ++ (topic.data ++ (".\n\n".data ++
        (promptExamples (rows.take k)).data)) := by
    simp [promptHeader, String.data_append, List.append_assoc]
  rw [hdata]
  rw [countOccur_append_sep p headerPre.data _ hne hpre hbH]
  by_cases hto : topic.data = []
  · rw [hto]
    rw [List.nil_append]
    rw [countOccur_append_sep p ".\n\n".data _ hne hdot3 hb5]
    exact countOccur_promptExamples p hne hdl _ hrow
  · rw [countOccur_append_left_zero p topic.data _ hne htopic '.' (by rfl) hdot]
    rw [countOccur_append_sep p ".\n\n".data _ hne hdot3 hb5]
    exact countOccur_promptExamples p hne hdl _ hrow

/-- The fields of a row contain no occurrence of the "Answer:" marker. -/
def CleanRow (r : QuestionRow) : Prop :=
  countOccur markerChars r.question.data = 0 ∧
  countOccur markerChars r.choice1.data = 0 ∧
  countOccur markerChars r.choice2.data = 0 ∧
  countOccur markerChars r.choice3.data = 0 ∧
  countOccur markerChars r.choice4.data = 0

instance (r : QuestionRow) : Decidable (CleanRow r) := by
  unfold CleanRow
  infer_instance

/-- A clean answered example contains the marker exactly once. -/
theorem countOccur_marker_formatRow (r : QuestionRow) (h : CleanRow r) :
    countOccur markerChars (formatRow r true).data = 1 := by
  rw [countOccur_formatRow_true markerChars r (by decide) (by decide)
    (by decide) (by decide) (by decide) (by decide)
    (by decide) (by decide) (by decide) (by decide)
    h.1 h.2.1 h.2.2.1 h.2.2.2.1 h.2.2.2.2]
  cases hc : r.correct <;> decide

/-- A clean answered example contains the answered marker of its own
letter exactly once, and no other answered marker. -/
theorem countOccur_ext_formatRow (L : Letter) (r : QuestionRow) (h : CleanRow r) :
    countOccur (extChars L) (formatRow r true).data =
      if r.correct = L then 1 else 0 := by
  cases L <;>
    rw [countOccur_formatRow_true _ r (by decide) (by decide)
      (by decide) (by decide) (by decide) (by decide)
      (by decide) (by decide) (by decide) (by decide)
      (countOccur_zero_mono markerChars _ _ (by decide) h.1)
      (countOccur_zero_mono markerChars _ _ (by decide) h.2.1)
      (countOccur_zero_mono markerChars _ _ (by decide) h.2.2.1)
      (countOccur_zero_mono markerChars _ _ (by decide) h.2.2.2.1)
      (countOccur_zero_mono markerChars _ _ (by decide) h.2.2.2.2)] <;>
    cases hc : r.correct <;> decide

theorem sum_map_one {α : Type} : ∀ l : List α,
    (l.map (fun _ => (1 : Nat))).sum = l.length := by
  intro l
  induction l with
  | nil => rfl
  | cons a l ih => simp [ih, Nat.add_comm]

/-- The generated prompt of `k` clean examples and a clean topic contains
the marker exactly `k` times. -/
theorem countOccur_marker_gen_prompt (rows : List QuestionRow) (topic : String)
    (k : Nat) (hk : k ≤ rows.length)
    (htopic : countOccur markerChars topic.data = 0)
    (hrows : ∀ r ∈ rows.take k, CleanRow r) :
    countOccur markerChars
      (promptHeader topic ++ promptExamples (rows.take k)).data = k := by
  rw [countOccur_prompt markerChars rows topic k (by decide) (by decide)
    (by decide) (by decide) (by decide) (by decide) (by decide) (by decide)
    htopic
    (fun r hr => by
      rw [countOccur_marker_formatRow r (hrows r hr)]
      cases hc : r.correct <;> decide)]
  have hmap : (rows.take k).map
      (fun r => countOccur markerChars (tailChars r.correct)) =
      (rows.take k).map (fun _ => (1 : Nat)) := by
    refine List.map_congr_left ?e
    intro r _
    cases hc : r.correct <;> decide
  rw [hmap, sum_map_one, List.length_take, Nat.min_eq_left hk]

/-- The generated prompt of `k` clean examples and a clean topic contains
the answered marker of letter `L` once per example row answering `L`. -/
theorem countOccur_ext_gen_prompt (L : Letter) (rows : List QuestionRow)
    (topic : String) (k : Nat) (_hk : k ≤ rows.length)
    (htopic : countOccur markerChars topic.data = 0)
    (hrows : ∀ r ∈ rows.take k, CleanRow r) :
    countOccur (extChars L)
      (promptHeader topic ++ promptExamples (rows.take k)).data =
      ((rows.take k).map (fun r => if r.correct = L then 1 else 0)).sum := by
  rw [countOccur_prompt (extChars L) rows topic k (by cases L <;> decide)
    (by cases L <;> decide) (by cases L <;> decide) (by cases L <;> decide)
    (by cases L <;> decide) (by cases L <;> decide) (by cases L <;> decide)
    (by cases L <;> decide)
    (countOccur_zero_mono markerChars _ _ (by cases L <;> decide) htopic)
    (fun r hr => by
      rw [countOccur_ext_formatRow L r (hrows r hr)]
      cases hc : r.correct <;> cases L <;> decide)]
  refine congrArg List.sum (List.map_congr_left ?e)
  intro r _
  cases hc : r.correct <;> cases L <;> decide

/-- Two different answered markers never occur at the same position. -/
theorem ext_match_disjoint (L L' : Letter) (h : L ≠ L') (s : List Char)
    (i : Nat) :
    ¬ ((extChars L).isPrefixOf (s.drop i) = true ∧
       (extChars L').isPrefixOf (s.drop i) = true) := by
  rintro ⟨h1, h2⟩
  rw [List.isPrefixOf_iff_prefix, List.prefix_iff_eq_take] at h1 h2
  have hlen : (extChars L).length = (extChars L').length := by
    cases L <;> cases L' <;> rfl
  have he : extChars L = extChars L' := by
    refine h1.trans ?e
    rw [hlen]
    exact h2.symm
  refine h ?eq
  revert he
  cases L <;> cases L' <;> decide

theorem marker_le_ext (L : Letter) : markerChars <+: extChars L := by
  cases L <;> decide

/-- The positions at which the four answered markers match are counted
additively (they are mutually exclusive). -/
theorem countP_ext_or (s : List Char) (l : List Nat) :
    l.countP (fun i => (extChars Letter.A).isPrefixOf (s.drop i) ||
        ((extChars Letter.B).isPrefixOf (s.drop i) ||
          ((extChars Letter.C).isPrefixOf (s.drop i) ||
            (extChars Letter.D).isPrefixOf (s.drop i)))) =
      l.countP (fun i => (extChars Letter.A).isPrefixOf (s.drop i)) +
      (l.countP (fun i => (extChars Letter.B).isPrefixOf (s.drop i)) +
       (l.countP (fun i => (extChars Letter.C).isPrefixOf (s.drop i)) +
        l.countP (fun i => (extChars Letter.D).isPrefixOf (s.drop i)))) := by
  rw [countP_or_of_disjoint (fun i => (extChars Letter.A).isPrefixOf (s.drop i))
    (fun i => (extChars Letter.B).isPrefixOf (s.drop i) ||
      ((extChars Letter.C).isPrefixOf (s.drop i) ||
        (extChars Letter.D).isPrefixOf (s.drop i))) l ?dA]
  case dA =>
    intro x _ hx
    rcases hx with ⟨hA, hor⟩
    simp only [Bool.or_eq_true] at hor
    rcases hor with h | h | h
    · exact ext_match_disjoint Letter.A Letter.B (by decide) s x ⟨hA, h⟩
    · exact ext_match_disjoint Letter.A Letter.C (by decide) s x ⟨hA, h⟩
    · exact ext_match_disjoint Letter.A Letter.D (by decide) s x ⟨hA, h⟩
  rw [countP_or_of_disjoint (fun i => (extChars Letter.B).isPrefixOf (s.drop i))
    (fun i => (extChars Letter.C).isPrefixOf (s.drop i) ||
      (extChars Letter.D).isPrefixOf (s.drop i)) l ?dB]
  case dB =>
    intro x _ hx
    rcases hx with ⟨hB, hor⟩
    simp only [Bool.or_eq_true] at hor
    rcases hor with h | h
    · exact ext_match_disjoint Letter.B Letter.C (by decide) s x ⟨hB, h⟩
    · exact ext_match_disjoint Letter.B Letter.D (by decide) s x ⟨hB, h⟩
  rw [countP_or_of_disjoint (fun i => (extChars Letter.C).isPrefixOf (s.drop i))
    (fun i => (extChars Letter.D).isPrefixOf (s.drop i)) l ?dC]
  case dC =>
    intro x _ hx
    exact ext_match_disjoint Letter.C Letter.D (by decide) s x hx

/-- If the marker occurs exactly as often as the four answered markers
together, then every marker occurrence extends to an answered one. -/
theorem marker_followed_by_letter (s : List Char) (kk : Nat)
    (hm : countOccur markerChars s = kk)
    (hsum : countOccur (extChars Letter.A) s +
      (countOccur (extChars Letter.B) s +
        (countOccur (extChars Letter.C) s +
          countOccur (extChars Letter.D) s)) = kk) :
    ∀ i, markerChars <+: s.drop i → ∃ L : Letter, extChars L <+: s.drop i := by
  intro i hi
  have hmlen : markerChars.length = 7 := rfl
  have hin : i < s.length := by
    have hlen := hi.length_le
    rw [List.length_drop, hmlen] at hlen
    omega
  have hf : (List.range s.length).countP
      (fun j => markerChars.isPrefixOf (s.drop j)) = kk := by
    rw [← countOccur_eq_countP markerChars (by decide) s]
    exact hm
  have hg : (List.range s.length).countP
      (fun j => (extChars Letter.A).isPrefixOf (s.drop j) ||
        ((extChars Letter.B).isPrefixOf (s.drop j) ||
          ((extChars Letter.C).isPrefixOf (s.drop j) ||
            (extChars Letter.D).isPrefixOf (s.drop j)))) = kk := by
    rw [countP_ext_or s (List.range s.length),
      ← countOccur_eq_countP (extChars Letter.A) (by decide) s,
      ← countOccur_eq_countP (extChars Letter.B) (by decide) s,
      ← countOccur_eq_countP (extChars Letter.C) (by decide) s,
      ← countOccur_eq_countP (extChars Letter.D) (by decide) s]
    exact hsum
  have himp : ∀ j ∈ List.range s.length,
      ((extChars Letter.A).isPrefixOf (s.drop j) ||
        ((extChars Letter.B).isPrefixOf (s.drop j) ||
          ((extChars Letter.C).isPrefixOf (s.drop j) ||
            (extChars Letter.D).isPrefixOf (s.drop j)))) = true →
      markerChars.isPrefixOf (s.drop j) = true := by
    intro j _ hj
    simp only [Bool.or_eq_true] at hj
    rw [List.isPrefixOf_iff_prefix]
    rcases hj with h | h | h | h
    · exact (marker_le_ext Letter.A).trans (List.isPrefixOf_iff_prefix.mp h)
    · exact (marker_le_ext Letter.B).trans (List.isPrefixOf_iff_prefix.mp h)
    · exact (marker_le_ext Letter.C).trans (List.isPrefixOf_iff_prefix.mp h)
    · exact (marker_le_ext Letter.D).trans (List.isPrefixOf_iff_prefix.mp h)
  have hrev := countP_eq_rev_imp _ _ (List.range s.length) himp
    (hf.trans hg.symm) i (List.mem_range.mpr hin)
    (List.isPrefixOf_iff_prefix.mpr hi)
  simp only [Bool.or_eq_true] at hrev
  rcases hrev with h | h | h | h
  · exact ⟨Letter.A, List.isPrefixOf_iff_prefix.mp h⟩
  · exact ⟨Letter.B, List.isPrefixOf_iff_prefix.mp h⟩
  · exact ⟨Letter.C, List.isPrefixOf_iff_prefix.mp h⟩
  · exact ⟨Letter.D, List.isPrefixOf_iff_prefix.mp h⟩

/-- **C1.** For the literal row {"Q1","A1","A2","A3","A4","A"} at index 0,
`format_example(rows, 0, include_answer=False)` returns exactly the string
"Q1\nA. A1\nB. A2\nC. A3\nD. A4\n - Answer:" — the question text, the four
letter-prefixed choices each on its own line, then the " - Answer:" marker,
with no other text. -/
theorem format_example_literal_scenario :
    format_example [scenarioRow] 0 false =
      some "Q1\nA. A1\nB. A2\nC. A3\nD. A4\n - Answer:" := by
  rfl

/-- **C5 (counterexample to the claim as stated).** The claim quantifies
over every topic name; for the topic "Answer:" and `k = 0` the generated
prompt contains one occurrence of the marker (inside the header that
embeds the topic), not `k = 0` occurrences. -/
theorem gen_prompt_marker_count_cex :
    gen_prompt ([] : List QuestionRow) "Answer:" 0 =
      Except.ok (promptHeader "Answer:" ++ promptExamples []) ∧
    countOccur markerChars (promptHeader "Answer:" ++ promptExamples []).data
      = 1 := by
  exact ⟨rfl, by decide⟩

/-- **C5 (amended).** Provided the topic name and the fields of the first
`k` example rows contain no occurrence of the "Answer:" substring,
`gen_prompt(rows, topic, k)` (with `k` at most the number of rows)
succeeds; its output is the fixed header embedding the topic followed by
the answered renderings of the first `k` rows in order; it contains
exactly `k` occurrences of the literal "Answer:" marker; and every such
occurrence is followed by a space and a letter (it extends to an answered
marker "Answer: L"). -/
theorem gen_prompt_marker_count (rows : List QuestionRow) (topic : String)
    (k : Nat) (hk : k ≤ rows.length)
    (htopic : countOccur markerChars topic.data = 0)
    (hrows : ∀ r ∈ rows.take k, CleanRow r) :
    gen_prompt rows topic k =
      Except.ok (promptHeader topic ++ promptExamples (rows.take k)) ∧
    countOccur markerChars
      (promptHeader topic ++ promptExamples (rows.take k)).data = k ∧
    ∀ i, markerChars <+:
        (promptHeader topic ++ promptExamples (rows.take k)).data.drop i →
      ∃ L : Letter, extChars L <+:
        (promptHeader topic ++ promptExamples (rows.take k)).data.drop i := by
  refine ⟨by simp [gen_prompt, hk],
    countOccur_marker_gen_prompt rows topic k hk htopic hrows, ?pos⟩
  refine marker_followed_by_letter _ k
    (countOccur_marker_gen_prompt rows topic k hk htopic hrows) ?hs
  rw [countOccur_ext_gen_prompt Letter.A rows topic k hk htopic hrows,
    countOccur_ext_gen_prompt Letter.B rows topic k hk htopic hrows,
    countOccur_ext_gen_prompt Letter.C rows topic k hk htopic hrows,
    countOccur_ext_gen_prompt Letter.D rows topic k hk htopic hrows,
    ← List.sum_map_add, ← List.sum_map_add, ← List.sum_map_add]
  have hone : (rows.take k).map (fun r =>
      (if r.correct = Letter.A then 1 else 0) +
      ((if r.correct = Letter.B then 1 else 0) +
       ((if r.correct = Letter.C then 1 else 0) +
        (if r.correct = Letter.D then (1 : Nat) else 0)))) =
      (rows.take k).map (fun _ => (1 : Nat)) := by
    refine List.map_congr_left ?e
    intro r _
    cases hc : r.correct <;> decide
  rw [hone, sum_map_one, List.length_take]
  omega

/-- Witness for the amended C5 at a concrete clean input. -/
theorem gen_prompt_marker_count_witness :
    countOccur markerChars
      (promptHeader "anatomy" ++ promptExamples ([scenarioRow].take 1)).data
      = 1 :=
  (gen_prompt_marker_count [scenarioRow] "anatomy" 1 (by decide) (by decide)
    (by decide)).2.1

/-- **C6.** With `shot_count = 0`, the full prompt built for a target
question — the `gen_prompt` output concatenated with the unanswered
target rendering — is exactly the instructional header followed by the
single unanswered target question, and nothing else. -/
theorem zero_shot_prompt (exRows : List QuestionRow) (topic : String)
    (targets : List QuestionRow) (i : Nat) (r : QuestionRow)
    (h : targets[i]? = some r) :
    ∃ train_prompt prompt_end,
      gen_prompt exRows topic 0 = Except.ok train_prompt ∧
      format_example targets i false = some prompt_end ∧
      train_prompt ++ prompt_end = promptHeader topic ++ formatRow r false := by
  refine ⟨promptHeader topic ++ promptExamples [], formatRow r false, ?g, ?f, ?e⟩
  · simp [gen_prompt]
  · simp [format_example, h]
  · show promptHeader topic ++ "" ++ formatRow r false =
      promptHeader topic ++ formatRow r false
    rw [String.append_empty]

/-- Witness for C6 at a concrete input. -/
theorem zero_shot_prompt_witness :
    ∃ train_prompt prompt_end,
      gen_prompt ([] : List QuestionRow) "anatomy" 0 = Except.ok train_prompt ∧
      format_example [scenarioRow] 0 false = some prompt_end ∧
      train_prompt ++ prompt_end =
        promptHeader "anatomy" ++ formatRow scenarioRow false :=
  zero_shot_prompt [] "anatomy" [scenarioRow] 0 scenarioRow rfl

/-- **C7.** A `shot_count` strictly greater than the number of available
example rows makes `gen_prompt` fail with an `OutOfRangeError` rather
than return a prompt string. -/
theorem gen_prompt_out_of_range (rows : List QuestionRow) (topic : String)
    (shot_count : Nat) (h : rows.length < shot_count) :
    gen_prompt rows topic shot_count = Except.error PromptError.outOfRange := by
  rw [gen_prompt, if_neg]
  omega

/-- Witness for C7 at a concrete input. -/
theorem gen_prompt_out_of_range_witness :
    gen_prompt ([] : List QuestionRow) "anatomy" 1 =
      Except.error PromptError.outOfRange :=
  gen_prompt_out_of_range [] "anatomy" 1 (by decide)

/-! ## The text after the last occurrence of the marker -/

/-- The text after the last (rightmost) occurrence of the pattern `p` in
`s`, or `none` if `p` does not occur. -/
def afterLast (p : List Char) : List Char → Option (List Char)
  | [] => if p.isEmpty then some [] else none
  | c :: s =>
    match afterLast p s with
    | some t => some t
    | none =>
      if p.isPrefixOf (c :: s) then some ((c :: s).drop p.length) else none

theorem afterLast_none_of_short (p : List Char) (hp : p ≠ []) :
    ∀ s : List Char, s.length < p.length → afterLast p s = none := by
  intro s
  induction s with
  | nil =>
    intro _
    have hne : ¬ p.isEmpty = true := fun hb => hp (List.isEmpty_iff.mp hb)
    simp [afterLast, hne]
  | cons c s ih =>
    intro h
    simp only [List.length_cons] at h
    have h1 : s.length < p.length := by omega
    have hnp : ¬ p.isPrefixOf (c :: s) = true := by
      intro hb
      have := (List.isPrefixOf_iff_prefix.mp hb).length_le
      simp only [List.length_cons] at this
      omega
    simp [afterLast, ih h1, hnp]

/-- If the string ends with the pattern, the text after the last
occurrence is empty. -/
theorem afterLast_of_suffix (p : List Char) (hp : p ≠ []) :
    ∀ s : List Char, p <:+ s → afterLast p s = some [] := by
  intro s
  induction s with
  | nil =>
    intro h
    exact absurd (List.suffix_nil.mp h) hp
  | cons c s ih =>
    intro h
    rcases List.suffix_cons_iff.mp h with heq | hsuf
    · have hlen : s.length < p.length := by rw [heq]; simp
      have hnone : afterLast p s = none := afterLast_none_of_short p hp s hlen
      have hpre : p.isPrefixOf (c :: s) = true := by
        rw [heq]
        exact List.isPrefixOf_iff_prefix.mpr (List.prefix_refl _)
      have hdrop : (c :: s).drop p.length = [] := by
        rw [heq]
        exact List.drop_length _
      simp [afterLast, hnone, hpre, hdrop]
    · simp [afterLast, ih hsuf]

/-- Prepending text does not change the result when the pattern occurs in
the right part. -/
theorem afterLast_append (p x y t : List Char)
    (h : afterLast p y = some t) : afterLast p (x ++ y) = some t := by
  induction x with
  | nil => simpa using h
  | cons c x ih => simp [afterLast, ih]

/-- The characters following the marker inside an answered example: the
space, the correct letter, and the blank separator line. -/
def afterMarker (L : Letter) : List Char := [' ', L.char, '\n', '\n']

theorem tailChars_decomp (L : Letter) :
    tailChars L = "\n - ".data ++ (markerChars ++ afterMarker L) := by
  cases L <;> rfl

/-- **C4.** For every `QuestionRow` and valid index, the output of
`format_example` with `include_answer = false` never contains the row's
correct letter after the (last) "Answer:" marker, and the output of
`format_example` with `include_answer = true` always contains the row's
correct letter after the (last) "Answer:" marker. -/
theorem format_example_letter_after_marker (rows : List QuestionRow) (i : Nat)
    (r : QuestionRow) (h : rows[i]? = some r) :
    (∃ s, format_example rows i false = some s ∧
      ∃ t, afterLast markerChars s.data = some t ∧ r.correct.char ∉ t) ∧
    (∃ s, format_example rows i true = some s ∧
      ∃ t, afterLast markerChars s.data = some t ∧ r.correct.char ∈ t) := by
  have step : ∀ (z x w : List Char), w <:+ x → w <:+ z ++ x :=
    fun z x w hw => hw.trans (List.suffix_append z x)
  constructor
  · refine ⟨formatRow r false, by simp [format_example, h], [], ?af1, by simp⟩
    apply afterLast_of_suffix markerChars (by decide)
    rw [formatRow_false_data]
    have hdecomp : "\n - Answer:".data = "\n - ".data ++ markerChars := by decide
    rw [hdecomp]
    refine step _ _ _ (step _ _ _ (step _ _ _ (step _ _ _ (step _ _ _
      (step _ _ _ (step _ _ _ (step _ _ _ (step _ _ _ ?base))))))))
    exact List.suffix_append _ _
  · refine ⟨formatRow r true, by simp [format_example, h],
      afterMarker r.correct, ?af2, ?mem2⟩
    case mem2 => cases hc : r.correct <;> decide
    case af2 =>
      rw [formatRow_true_data, tailChars_decomp]
      have hbase : afterLast markerChars (markerChars ++ afterMarker r.correct) =
          some (afterMarker r.correct) := by
        cases hc : r.correct <;> decide
      exact afterLast_append _ _ _ _ (afterLast_append _ _ _ _
        (afterLast_append _ _ _ _ (afterLast_append _ _ _ _
          (afterLast_append _ _ _ _ (afterLast_append _ _ _ _
            (afterLast_append _ _ _ _ (afterLast_append _ _ _ _
              (afterLast_append _ _ _ _ (afterLast_append _ _ _ _ hbase)))))))))

/-- Witness for C4 at a concrete input. -/
theorem format_example_letter_after_marker_witness :
    (∃ s, format_example [scenarioRow] 0 false = some s ∧
      ∃ t, afterLast markerChars s.data = some t ∧
        scenarioRow.correct.char ∉ t) ∧
    (∃ s, format_example [scenarioRow] 0 true = some s ∧
      ∃ t, afterLast markerChars s.data = some t ∧
        scenarioRow.correct.char ∈ t) :=
  format_example_letter_after_marker [scenarioRow] 0 scenarioRow rfl

/-! ## Dataset reader

The notebooks load the benchmark with `pd.read_csv(path, header=None)`
and use the resulting table directly; no validation code of their own
surrounds the call. -/

/-- Error of the external CSV parser. -/
inductive ReadError where
  | parserError
deriving DecidableEq, Repr

/-- Model of `pd.read_csv(path, header=None)` as the notebooks invoke it:
the parse fails (pandas `ParserError`) only when a row has more fields
than the first row; otherwise every parsed row is accepted as-is.  The
notebooks apply no validation of their own to the parsed rows — no check
that a row has exactly 6 columns and no check of the last column against
{A, B, C, D}.  (Pandas pads short rows with NaN; the padding values are
irrelevant to the properties proved here and are not modelled.) -/
def read_csv (rows : List (List String)) :
    Except ReadError (List (List String)) :=
  match rows with
  | [] => Except.ok []
  | r0 :: _ =>
    if ∀ r ∈ rows, r.length ≤ r0.length then Except.ok rows
    else Except.error ReadError.parserError

/-- **C2 (counterexample to the claim as stated).** A table whose single
row carries the letter "X" in its last column is read back without any
error: no `DataFormatError` is raised for an invalid answer letter
anywhere in the notebooks. -/
theorem read_csv_no_letter_validation_cex :
    read_csv [["Q1", "A1", "A2", "A3", "A4", "X"]] =
      Except.ok [["Q1", "A1", "A2", "A3", "A4", "X"]] ∧
    ("X" ∉ (["A", "B", "C", "D"] : List String)) := by
  constructor
  · rfl
  · decide

/-- **C2 (amended).** The reader validates nothing about row contents:
any table in which no row is wider than the first is loaded as-is into an
ordered, index-addressable sequence of rows — rows without exactly 6
columns or with a last column outside {A,B,C,D} included; only a row
wider than the first fails, and with the parser's own error, not a
DataFormatError. -/
theorem read_csv_amended :
    (∀ (r0 : List String) (rs : List (List String)),
      (∀ r ∈ r0 :: rs, r.length ≤ r0.length) →
      read_csv (r0 :: rs) = Except.ok (r0 :: rs)) ∧
    (∀ (r0 : List String) (rs : List (List String)) (r : List String),
      r ∈ r0 :: rs → r0.length < r.length →
      read_csv (r0 :: rs) = Except.error ReadError.parserError) := by
  constructor
  · intro r0 rs h
    simp only [read_csv]
    rw [if_pos h]
  · intro r0 rs r hr hlen
    simp only [read_csv]
    rw [if_neg]
    intro hall
    exact absurd (hall r hr) (by omega)

/-- Witness for the amended C2: a 5-column table and a 6-column table
with letter "X" both load, and a widening row fails the parse. -/
theorem read_csv_amended_witness :
    read_csv [["Q1", "A1", "A2", "A3", "A4"],
      ["Q2", "B1", "B2", "B3", "B4"]] =
      Except.ok [["Q1", "A1", "A2", "A3", "A4"],
        ["Q2", "B1", "B2", "B3", "B4"]] ∧
    read_csv [["a", "b"], ["c", "d", "e"]] =
      Except.error ReadError.parserError :=
  ⟨read_csv_amended.1 ["Q1", "A1", "A2", "A3", "A4"]
      [["Q2", "B1", "B2", "B3", "B4"]] (by decide),
    read_csv_amended.2 ["a", "b"] [["c", "d", "e"]] ["c", "d", "e"]
      (by decide) (by decide)⟩

/-! ## Scoring loop

`answers = []; for q in tqdm(range(35, 55)): ... response =
llm.invoke(messages); answers.append(response.content)`. -/

/-- The sequential scoring loop: per question build the prompt, invoke
the model, record the response content; an unrecoverable call failure
halts the loop, leaving the pair of the answers recorded so far and the
error. -/
def scoringLoop {ε : Type} (invoke : String → Except ε String)
    (buildPrompt : Nat → String) : List Nat → List String × Option ε
  | [] => ([], none)
  | q :: qs =>
    match invoke (buildPrompt q) with
    | Except.ok content =>
      let rest := scoringLoop invoke buildPrompt qs
      (content :: rest.1, rest.2)
    | Except.error e => ([], some e)

/-- **C8.** If the model call for the `i`-th target question fails with
an unrecoverable error, the loop halts at that step and the answers list
contains exactly the recorded contents for the questions processed before
the failing one, unchanged by the failure. -/
theorem scoringLoop_partial_answers {ε : Type}
    (invoke : String → Except ε String) (buildPrompt : Nat → String)
    (qs₁ : List Nat) (q : Nat) (qs₂ : List Nat) (f : Nat → String) (e : ε)
    (hok : ∀ x ∈ qs₁, invoke (buildPrompt x) = Except.ok (f x))
    (herr : invoke (buildPrompt q) = Except.error e) :
    scoringLoop invoke buildPrompt (qs₁ ++ q :: qs₂) = (qs₁.map f, some e) := by
  induction qs₁ with
  | nil => simp [scoringLoop, herr]
  | cons x xs ih =>
    have hx := hok x (List.mem_cons_self _ _)
    simp [scoringLoop, hx, ih (fun y hy => hok y (List.mem_cons_of_mem _ hy))]

/-- Witness for C8: a model that fails on the third question leaves the
two earlier answers. -/
theorem scoringLoop_partial_answers_witness :
    scoringLoop (fun s => if s = "bb" then Except.error (7 : Nat)
        else Except.ok s)
      (fun n => if n < 2 then "a" else "bb") ([0, 1] ++ 2 :: [3]) =
      (["a", "a"], some 7) :=
  scoringLoop_partial_answers
    (fun s => if s = "bb" then Except.error (7 : Nat) else Except.ok s)
    (fun n => if n < 2 then "a" else "bb") [0, 1] 2 [3] (fun _ => "a") 7
    (by intro x hx; fin_cases hx <;> rfl) rfl

/-! ## Configuration

The setup cell runs
`os.environ["OPENAI_API_KEY"] = os.getenv("OPENAI_API_KEY")`. -/

/-- Error of the configuration step. -/
inductive ConfigError where
  | missingKey
deriving DecidableEq, Repr

/-- Model of the setup cell: when the variable is absent `os.getenv`
returns None and the assignment into `os.environ` itself raises
(`str expected, not NoneType`); configuration succeeds only with the key
present. -/
def configureApiKey (env : String → Option String) :
    Except ConfigError String :=
  match env "OPENAI_API_KEY" with
  | none => Except.error ConfigError.missingKey
  | some key => Except.ok key

/-- A request to the hosted model, built only from a configured key and a
prompt; sending one is the network call. -/
structure ModelRequest where
  apiKey : String
  prompt : String
deriving DecidableEq, Repr

/-- A model invocation: the configuration step followed by the network
send (the collaborator `net` stands for the network). -/
def invokeHostedModel (env : String → Option String) (prompt : String)
    (net : ModelRequest → String) : Except ConfigError String :=
  match configureApiKey env with
  | Except.error e => Except.error e
  | Except.ok key => Except.ok (net { apiKey := key, prompt := prompt })

/-- **C9.** If the API key environment variable is absent, every
model-invocation attempt fails with the configuration error, whatever the
network behaviour: the failure happens before any `ModelRequest` is built
or sent. -/
theorem missing_api_key_fails_before_network
    (env : String → Option String) (h : env "OPENAI_API_KEY" = none)
    (prompt : String) (net : ModelRequest → String) :
    invokeHostedModel env prompt net = Except.error ConfigError.missingKey := by
  simp [invokeHostedModel, configureApiKey, h]

/-- Witness for C9. -/
theorem missing_api_key_fails_before_network_witness :
    invokeHostedModel (fun _ => none) "prompt" (fun _ => "response") =
      Except.error ConfigError.missingKey :=
  missing_api_key_fails_before_network (fun _ => none) rfl "prompt"
    (fun _ => "response")

/-! ## Accuracy computation

`cont = sum(1 for x, y in zip(answers, real_answers) if x == y)` followed
by `print(f"Grade: {cont} in 20")`. -/

/-- The correct-answer count of the grading cell: the number of aligned
positions of the two (zipped, hence truncated to the shorter) lists whose
entries are equal. -/
def cont (answers real_answers : List String) : Nat :=
  ((answers.zip real_answers).filter (fun xy => xy.1 == xy.2)).length

/-- The accuracy of a prediction run: the correct-answer count divided by
the number of target questions (one prediction per target question). -/
def accuracy (answers real_answers : List String) : Rat :=
  (cont answers real_answers : Rat) / (answers.length : Rat)

/-- The number of indices of the prediction list at which both lists hold
the same entry. -/
def matchCount (p t : List String) : Nat :=
  (List.range p.length).countP (fun i => p[i]? == t[i]?)

theorem cont_eq_matchCount : ∀ p t : List String, p.length ≤ t.length →
    cont p t = matchCount p t := by
  intro p
  induction p with
  | nil => intro t _; rfl
  | cons a p ih =>
    intro t h
    cases t with
    | nil => simp at h
    | cons b t' =>
      have h' : p.length ≤ t'.length := by
        simpa using h
      have e1 : ((fun i => (a :: p)[i]? == (b :: t')[i]?) ∘ Nat.succ) =
          (fun i => p[i]? == t'[i]?) := by
        funext i
        simp
      unfold matchCount
      rw [List.length_cons, List.range_succ_eq_map, List.countP_cons,
        List.countP_map, e1]
      have e2 : (List.range p.length).countP (fun i => p[i]? == t'[i]?) =
          cont p t' := (ih t' h').symm
      rw [e2]
      unfold cont
      rcases hab : a == b <;>
        simp [List.zip_cons_cons, List.filter_cons, hab, Nat.add_comm]

/-- **C3.** After the scoring loop, the accuracy equals the number of
positions where the predicted letter equals the true letter divided by
the total number of target questions; in particular predicted = ["C","D"]
against true = ["C","D"] gives 1.0, and predicted = ["C","X"] against
true = ["C","D"] gives 0.5. -/
theorem accuracy_counts_matches (p t : List String)
    (h : p.length ≤ t.length) :
    accuracy p t = (matchCount p t : Rat) / (p.length : Rat) ∧
    accuracy ["C", "D"] ["C", "D"] = 1 ∧
    accuracy ["C", "X"] ["C", "D"] = 1 / 2 := by
  refine ⟨?gen, ?s1, ?s2⟩
  · unfold accuracy
    rw [cont_eq_matchCount p t h]
  · have hc : cont ["C", "D"] ["C", "D"] = 2 := rfl
    unfold accuracy
    rw [hc]
    norm_num
  · have hc : cont ["C", "X"] ["C", "D"] = 1 := rfl
    unfold accuracy
    rw [hc]
    norm_num

/-- Witness for C3 at the spec's own scenario inputs. -/
theorem accuracy_counts_matches_witness :
    accuracy ["C", "D"] ["C", "D"] = 1 ∧ accuracy ["C", "X"] ["C", "D"] = 1 / 2 :=
  ⟨(accuracy_counts_matches ["C", "D"] ["C", "D"] (by decide)).2.1,
    (accuracy_counts_matches ["C", "D"] ["C", "D"] (by decide)).2.2⟩

/-! ## The scoring run over indices 35..54 against `loc[35:55]` -/

/-- Python `range(a, b)`: the integers from `a` (inclusive) to `b`
(exclusive). -/
def pyRange (a b : Nat) : List Nat := List.range' a (b - a)

/-- Pandas label slicing `col.loc[a:b]` on the default integer index:
both endpoints inclusive. -/
def locSlice (col : List String) (a b : Nat) : List String :=
  (col.drop a).take (b + 1 - a)

/-- `real_answers = df.loc[35:55, last_col].tolist()`. -/
def real_answers (col : List String) : List String := locSlice col 35 55

/-- The predictions of the scoring run: one recorded answer per question
of `range(35, 55)`. -/
def answersOf (model : Nat → String) : List String := (pyRange 35 55).map model

/-- Zipping truncates to the prediction list: entries of the truth list
beyond it are ignored by the count. -/
theorem cont_take : ∀ p t : List String, cont p t = cont p (t.take p.length) := by
  intro p
  induction p with
  | nil => intro t; rfl
  | cons a p ih =>
    intro t
    cases t with
    | nil => rfl
    | cons b t' =>
      unfold cont
      simp only [List.length_cons, List.take_succ_cons, List.zip_cons_cons,
        List.filter_cons]
      have := ih t'
      unfold cont at this
      rcases hab : a == b <;> simp [hab, this]

/-- **C10.** Over the target indices 35 to 54 the predictions list has 20
entries while the ground-truth list built with `loc[35:55]` has 21
entries (pandas label slicing is end-inclusive); the correct-answer count
pairs predictions with ground truth positionally over the first 20 pairs
only, so the 21st ground-truth letter never affects the reported grade. -/
theorem scoring_run_off_by_one (col : List String) (h : 56 ≤ col.length)
    (model : Nat → String) :
    (answersOf model).length = 20 ∧
    (real_answers col).length = 21 ∧
    cont (answersOf model) (real_answers col) =
      cont (answersOf model) ((real_answers col).take 20) ∧
    (∀ col' : List String,
      (real_answers col).take 20 = (real_answers col').take 20 →
      cont (answersOf model) (real_answers col) =
        cont (answersOf model) (real_answers col')) := by
  have hlen : (answersOf model).length = 20 := by
    simp [answersOf, pyRange]
  refine ⟨hlen, ?l21, ?tr, ?unaff⟩
  case l21 =>
    simp only [real_answers, locSlice, List.length_take, List.length_drop]
    omega
  case tr =>
    rw [cont_take (answersOf model) (real_answers col), hlen]
  case unaff =>
    intro col' he
    rw [cont_take (answersOf model) (real_answers col),
      cont_take (answersOf model) (real_answers col'), hlen, he]

/-- Witness for C10 on a concrete 56-letter column. -/
theorem scoring_run_off_by_one_witness :
    (real_answers (List.replicate 56 "A")).length = 21 :=
  (scoring_run_off_by_one (List.replicate 56 "A") (by simp)
    (fun _ => "A")).2.1

end DeepevalStudies
